import Mathlib

/-! Verification of the firmware discovery and reconciliation engine
(`src/etubeapi/lib.py`) against its natural-language specification.

The Python source is shallowly embedded: pure functions become Lean
functions, the stateful fetch layer becomes explicit state passing over an
outcome stream, machine integers are `Nat`/`Int` (Python ints are unbounded,
so no wrap-around modelling is needed), and fallible code returns
`Option`/`Except`.
-/

namespace Etube

/-! Section: Version (lib.py:52-134)

`Version` is a triplet of non-negative integers.  `Version.min()` is 0.0.0
and `Version.max()` is 10.20.20.
-/

structure Version where
  major : Nat
  minor : Nat
  patch : Nat
deriving DecidableEq

/-- Source `Version.min()` (lib.py:87-89), built with `unchecked=True`. -/
def vminV : Version := ⟨0, 0, 0⟩

/-- Source `Version.max()` (lib.py:91-93), built with `unchecked=True`. -/
def vmaxV : Version := ⟨10, 20, 20⟩

/-- Source `Version.__lt__` (lib.py:126-131): a short-circuit OR over the three
fields, exactly as written in the source (NOT lexicographic). -/
def vlt (a b : Version) : Bool :=
  decide (a.major < b.major) || decide (a.minor < b.minor) || decide (a.patch < b.patch)

/-- Source `Version.__gt__`, derived by `functools.total_ordering` from `__lt__`
and `__eq__`: `a > b` iff `not (a < b or a == b)`. -/
def vgt (a b : Version) : Bool :=
  !(vlt a b || decide (a = b))

/-- The checked constructor `Version(val)` with `unchecked=False`
(lib.py:54-69): raises `ValueError` (here `none`) when the triplet compares
below `Version.min()` or above `Version.max()` under the source's own
comparison operators. -/
def mkVersion (t : Version) : Option Version :=
  if vlt t vminV then none
  else if vgt t vmaxV then none
  else some t

/-- Source `Version.__int__` (lib.py:95-102): `m = 1; v = patch*m;
m *= max.patch; v += minor*m; m *= max.minor; v += major*m`.
The multipliers are `max.patch = 20` and `max.patch * max.minor = 400`
(note: NOT `max.patch + 1` / `(max.patch+1)*(max.minor+1)`). -/
def vInt (v : Version) : Nat :=
  v.patch + v.minor * vmaxV.patch + v.major * (vmaxV.patch * vmaxV.minor)

/-- Source `Version.from_int` (lib.py:71-81): successive divmod by
`max.patch = 20`, `max.minor = 20`, `max.major = 10`; raises
(`none`) when the remaining quotient is non-zero, then runs the checked
constructor. -/
def from_int (num : Nat) : Option Version :=
  if num / vmaxV.patch / vmaxV.minor / vmaxV.major ≠ 0 then none
  else mkVersion ⟨num / vmaxV.patch / vmaxV.minor % vmaxV.major,
                  num / vmaxV.patch % vmaxV.minor,
                  num % vmaxV.patch⟩

/-- Modelled from the spec (refinement comparison only; the source's
`__lt__` is `vlt` above): true lexicographic order on
(major, minor, patch). -/
def lexLt (a b : Version) : Bool :=
  decide (a.major < b.major) ||
    (decide (a.major = b.major) &&
      (decide (a.minor < b.minor) ||
        (decide (a.minor = b.minor) && decide (a.patch < b.patch))))

/-! Section: the fetch layer `http_request` (lib.py:189-237)

Each loop iteration issues `httpx.request(method, url, ...)`, then
unconditionally `httpx.get(url, ...)`, overwriting `response`; only the GET
response is status-checked and returned.  The network's behaviour is the
model's input: a list of per-attempt `Attempt` records, consumed one per
loop iteration.  Exceptions become constructors of `NetErr`:
`TimeoutException`, `HTTPStatusError` (raised by `raise_for_status`), and
the remaining `HTTPError` subclasses (connection errors etc.).
-/

/-- A transport-level failure `httpx` can raise while performing a request
(before any status check): `TimeoutException` or another non-status
`HTTPError`. -/
inductive TransportErr where
  | timeout
  | otherHTTPError
deriving DecidableEq

/-- The exceptions the `try` block of `http_request` can raise. -/
inductive NetErr where
  | timeout
  | statusError (code : Nat) (server : Option String)
  | otherHTTPError
deriving DecidableEq

/-- An HTTP response as far as the source inspects one: status code, the
`server` header, and the body returned by `response.read()`. -/
structure NetResponse where
  status : Nat
  server : Option String
  body : String
deriving DecidableEq

/-- The network's behaviour for one iteration of the retry loop:
the method-specific `httpx.request` call (lib.py:197-199) either raises a
transport error or completes with `firstResponse` (which the source
immediately overwrites and never inspects), and then the unconditional
`httpx.get` (lib.py:200) either raises a transport error or yields a
response. -/
structure Attempt where
  firstOutcome : Option TransportErr
  firstResponse : NetResponse
  getOutcome : Except TransportErr NetResponse

/-- Source `response.raise_for_status()` (lib.py:201): httpx raises
`HTTPStatusError` (carrying the response) unless the status is a 2xx
success. -/
def raise_for_status (r : NetResponse) : Except NetErr String :=
  if 200 ≤ r.status ∧ r.status ≤ 299 then .ok r.body
  else .error (.statusError r.status r.server)

/-- One pass through the `try` block (lib.py:196-203): run the
method-specific request (response discarded), then the GET, then the status
check; the result is the GET body. -/
def runAttempt (a : Attempt) : Except NetErr String :=
  match a.firstOutcome with
  | some .timeout => .error .timeout
  | some .otherHTTPError => .error .otherHTTPError
  | none =>
    match a.getOutcome with
    | .error .timeout => .error .timeout
    | .error .otherHTTPError => .error .otherHTTPError
    | .ok resp => raise_for_status resp

/-- The exception classification of the `except` clauses (lib.py:204-222).
`TimeoutException` is caught and retried.  `HTTPStatusError` is matched at
lib.py:209 against the pair `(status_code, server header)`:
statuses 500-599 pass, `(403, "AkamaiGHost")` passes, everything else
re-raises.  The source's `case 429:` compares that pair against the integer
literal 429; a tuple never equals an int, so that branch can never match
and contributes nothing.  The trailing `except HTTPError` catches every
remaining httpx error (connection failures etc.) and retries it. -/
def exceptionRetryable : NetErr → Bool
  | .timeout => true
  | .statusError code server =>
    if 500 ≤ code ∧ code ≤ 599 then true
    else if code = 403 ∧ server = some "AkamaiGHost" then true
    else false
  | .otherHTTPError => true

/-- Source `raise last_exception` (lib.py:229): `last_exception` starts as `None`,
so when the loop body never ran the source executes `raise None`, a
`TypeError` (modelled as `raisedNone`). -/
inductive ReqResult where
  | ok (body : String)
  | raised (e : NetErr)
  | raisedNone
  | stuck
deriving DecidableEq

def raiseLast : Option NetErr → ReqResult
  | none => .raisedNone
  | some e => .raised e

/-- The retry loop of `http_request` (lib.py:190-229), returning the result
together with the list of `time.sleep` durations performed.  `retry` is the
source's `retry` parameter (`-1` = unlimited; Python's `while retry` treats
0 — and the `None` default type — as falsy).  `backoff` starts at 10 and
after each sleep becomes `min(backoff*2, 300)`.  After a retryable failure
the source decrements `retry` unless it is `-1`, then sleeps only `if
retry:`.  `stuck` is a model artifact for an exhausted attempt stream while
the loop would continue; the theorems never reach it. -/
def httpLoop (atts : List Attempt) (retry : Int) (backoff : Nat)
    (last : Option NetErr) : ReqResult × List Nat :=
  if retry = 0 then (raiseLast last, [])
  else
    match atts with
    | [] => (.stuck, [])
    | a :: rest =>
      match runAttempt a with
      | .ok body => (.ok body, [])
      | .error e =>
        if exceptionRetryable e then
          let retry' : Int := if retry = -1 then retry else retry - 1
          if retry' = 0 then httpLoop rest retry' backoff (some e)
          else
            let r := httpLoop rest retry' (min (backoff * 2) 300) (some e)
            (r.1, backoff :: r.2)
        else (.raised e, [])

/-- Source `http_request(method, url, retry)` (lib.py:189-229) minus the
`functools.cache` wrapper (modelled separately as `cachedHttpRequest`).
The `method` string only names the first, discarded request; it does not
enter the semantics — which is exactly claim C10. -/
def http_request (method : String) (atts : List Attempt) (retry : Int) :
    ReqResult × List Nat :=
  httpLoop atts retry 10 none

/-- Source `http_head` (lib.py:232-233): a full `http_request("HEAD", url, retry)`,
whose result is the GET body, not a HEAD-only existence check. -/
def http_head (atts : List Attempt) (retry : Int) : ReqResult × List Nat :=
  http_request "HEAD" atts retry

/-- Source `http_get` (lib.py:236-237). -/
def http_get (atts : List Attempt) (retry : Int) : ReqResult × List Nat :=
  http_request "GET" atts retry

/-- An attempt whose GET completes with the given non-2xx (or any) status
and the `server` header; the discarded first response is arbitrary. -/
def attStatus (code : Nat) (server : Option String) : Attempt :=
  ⟨none, ⟨200, none, "discarded"⟩, .ok ⟨code, server, "errbody"⟩⟩

/-- An attempt whose GET succeeds with status 200 and the given body. -/
def attOk (body : String) : Attempt :=
  ⟨none, ⟨200, none, "discarded"⟩, .ok ⟨200, none, body⟩⟩

/-- The fail-fail-succeed scenario of claim C4: two attempts ending in
HTTP status 503, then a successful attempt with body "payload". -/
def c4Scenario : List Attempt :=
  [attStatus 503 none, attStatus 503 none, attOk "payload"]

/-! Section: the `functools.cache` wrapper (lib.py:189)

`@cache` memoizes `http_request` in a module-level, process-wide map keyed
by the positional argument tuple `(method, url, retry)`.  Nothing in the
source ever clears it — in particular `get_all_firmware` (lib.py:320-322)
starts with no reinitialization — so entries persist for the lifetime of
the process, across top-level invocations.  `functools.cache` stores only
values returned normally; a raised exception is not cached. -/

abbrev Cache := List ((String × String × Int) × String)

/-- Source `http_request` as actually called through its `functools.cache`
wrapper: on a key hit the cached body is returned with no network activity
and the cache unchanged; on a miss the loop runs, and a successful body is
stored under the key.  The final `Bool` records whether any network request
was issued. -/
def cachedHttpRequest (c : Cache) (method url : String) (retry : Int)
    (atts : List Attempt) : (ReqResult × List Nat) × Cache × Bool :=
  match List.lookup (method, url, retry) c with
  | some body => ((.ok body, []), c, false)
  | none =>
    let r := http_request method atts retry
    match r.1 with
    | .ok body => (r, ((method, url, retry), body) :: c, true)
    | _ => (r, c, true)

/-! Section: bisection discovery (lib.py:254-284)

`get_firmware_list_bisect` runs the recursive closure `inner` over the
range `[Version("2.2.3"), Version("9.9.19")]`, collecting the set of
distinct payload strings returned by the (memoized) fetch.  The fetch is
modelled as a pure function `p` on integer-encoded versions.  Every version
the recursion touches lies in the encodings `[843, 3799]` (843 = int 2.2.3,
3799 = int 9.9.19), a sub-range of the lattice `major < 10, minor < 20,
patch < 20` on which `vInt`/`from_int` is a bijection (`c1_roundtrip_strict`),
so Version equality (`low == mid`, `high == mid`) coincides with equality
of the integer encodings and the recursion is faithfully represented over
`Nat` codes.  `mid = Version.from_int((int(low)+int(high))//2)`;
`final = low == mid or high == mid`; payloads `a = p mid`, `b = p high`;
if `a == b` the result is `{a}` together with (unless final) the recursion
on `[low, mid]`, otherwise `{a, b}` together with (unless final) the
recursions on `[low, mid]` and `[mid, high]`. -/

def inner (p : Nat → String) (low high : Nat) : Finset String :=
  if p ((low + high) / 2) = p high then
    insert (p ((low + high) / 2))
      (if h : low = (low + high) / 2 ∨ high = (low + high) / 2 then (∅ : Finset String)
       else inner p low ((low + high) / 2))
  else
    {p ((low + high) / 2), p high} ∪
      (if h : low = (low + high) / 2 ∨ high = (low + high) / 2 then (∅ : Finset String)
       else inner p low ((low + high) / 2) ∪ inner p ((low + high) / 2) high)
termination_by (high - low) + (low - high)
decreasing_by
  all_goals (push_neg at h; omega)

/-! Section: Firmware records (lib.py:38-49) -/

/-- The frozen dataclass `Firmware`: equality (and hence set membership)
is structural over all six fields. -/
structure Firmware where
  filename : String
  version : String
  filesize : Option Nat
  md5 : Option String
  type : Option String
  download_url : String
deriving DecidableEq

/-! Section: filename parsing (lib.py:176-182)

`parse_fw_filename` runs
`re.fullmatch(r"(.*)(.)(\d+\.\d+\.\d+)(\..*)", s)` and then calls
`.group(...)` on the result: when the regex does not match, `re.fullmatch`
returns `None` and `match.group(1)` raises `AttributeError` — the source
defines no dedicated malformed-filename exception.  In the regex, `.`
matches any character except a newline and `\d` a digit (modelled as ASCII
`Char.isDigit`; the repository's inputs are ASCII filenames).  Each `\d+`
is immediately followed by a forced literal `.`, so maximal-munch digit
scanning is the only way the tail can match; the one genuine backtracking
choice is the greedy group 1, and `fwMatchAux` prefers the longer group-1
split first, exactly like the regex engine. -/

/-- Maximal digit-run splitter: `takeDigits cs = (longest digit prefix,
rest)`. -/
def takeDigits : List Char → List Char × List Char
  | [] => ([], [])
  | c :: cs =>
    if c.isDigit then (c :: (takeDigits cs).1, (takeDigits cs).2)
    else ([], c :: cs)

/-- Pattern `\d+`: the maximal digit run, required non-empty. -/
def digitRun (cs : List Char) : Option (List Char × List Char) :=
  if (takeDigits cs).1 = [] then none else some (takeDigits cs)

/-- A forced literal `\.`. -/
def expectDot : List Char → Option (List Char)
  | '.' :: r => some r
  | _ => none

/-- Matches `(\d+\.\d+\.\d+)(\..*)` against `cs`, returning the three digit
groups and the extension tail (the characters after the extension's leading
dot).  Because each `\d+` is immediately followed by a forced `\.`,
maximal-munch scanning is the unique way this tail can match (backtracking
a `\d+` would leave a digit where the dot is required).  The final `.*` of
the pattern excludes newlines. -/
def versionAndExt (cs : List Char) :
    Option (List Char × List Char × List Char × List Char) :=
  (digitRun cs).bind fun p1 =>
  (expectDot p1.2).bind fun r2 =>
  (digitRun r2).bind fun p2 =>
  (expectDot p2.2).bind fun r4 =>
  (digitRun r4).bind fun p3 =>
  (expectDot p3.2).bind fun ext =>
  if ext.all (· != '\n') then some (p1.1, p2.1, p3.1, ext) else none

/-- The four capture groups of a successful `fullmatch`: group 1 `name`,
group 2 `sep`, group 3 as the digit runs `d1.d2.d3`, group 4 as `'.' ++
ext`. -/
structure FwParts where
  name : List Char
  sep : Char
  d1 : List Char
  d2 : List Char
  d3 : List Char
  ext : List Char
deriving DecidableEq

/-- The backtracking matcher for the full pattern, on the remaining
characters.  Group 1 (`.*`, greedy) prefers to absorb the head character
(the recursive call); only when no match exists with a longer group 1 does
the head become group 2's single separator character.  A newline can belong
to no group, so it fails the whole match. -/
def fwMatchAux : List Char → Option FwParts
  | [] => none
  | c :: rest =>
    if c = '\n' then none
    else
      match fwMatchAux rest with
      | some q => some { q with name := c :: q.name }
      | none =>
        match versionAndExt rest with
        | none => none
        | some (d1, d2, d3, ext) => some ⟨[], c, d1, d2, d3, ext⟩

/-- Source `re.fullmatch(r"(.*)(.)(\d+\.\d+\.\d+)(\..*)", s)`, returning the four
captured groups. -/
def fwMatch (s : String) : Option (String × Char × String × String) :=
  match fwMatchAux s.data with
  | none => none
  | some q =>
    some (⟨q.name⟩, q.sep, ⟨q.d1 ++ '.' :: (q.d2 ++ '.' :: q.d3)⟩, ⟨'.' :: q.ext⟩)

/-- The Python exceptions `parse_fw_filename` can raise.
`malformedFilenameError` appears in the specification only: the source
defines no such exception class, and no execution path can produce it; it
is declared here solely so the spec's claim can be stated and refuted. -/
inductive PyErr where
  | attributeError
  | valueError
  | malformedFilenameError
deriving DecidableEq

/-- Source `val.split(".")`: split a character list at every dot.  (Python uses
`split(".", 3)`, which caps the result at four parts; only indices 0-2 are
read, on which the two agree.) -/
def splitDots : List Char → List (List Char)
  | [] => [[]]
  | c :: cs =>
    if c = '.' then [] :: splitDots cs
    else
      match splitDots cs with
      | [] => [[c]]
      | p :: ps => (c :: p) :: ps

/-- Python `int()` restricted to the inputs reachable here: a non-empty
run of ASCII digits (the regex's `\d+` groups); anything else raises
`ValueError` (`none`). -/
def digitsToNat (ds : List Char) : Option Nat :=
  if ds = [] then none
  else if ds.all Char.isDigit then
    some (ds.foldl (fun n c => n * 10 + (c.toNat - 48)) 0)
  else none

/-- Source `Version(version_str)` on a string (lib.py:54-59): `split(".", 3)`,
`int()` on the first three parts, then the bounds check.  `int()` failure
and a missing part are `ValueError`/`IndexError` — both unreachable from
the regex's digit groups and modelled as `none` alongside the bounds
`ValueError`. -/
def versionOfString (s : String) : Option Version :=
  match splitDots s.data with
  | p0 :: p1 :: p2 :: _ =>
    match digitsToNat p0, digitsToNat p1, digitsToNat p2 with
    | some a, some b, some c => mkVersion ⟨a, b, c⟩
    | _, _, _ => none
  | _ => none

/-- Source `parse_fw_filename` (lib.py:176-182).  A non-matching filename fails
with `AttributeError` (from `None.group(1)`); a matching one whose version
triplet fails the `Version` bounds check fails with `ValueError`. -/
def parse_fw_filename (s : String) :
    Except PyErr (String × Char × Version × String) :=
  match fwMatch s with
  | none => .error .attributeError
  | some (name, sep, vstr, ext) =>
    match versionOfString vstr with
    | none => .error .valueError
    | some v => .ok (name, sep, v, ext)

/-- The language of the regex, spelled out: the character list decomposes
into group 1 (newline-free), one non-newline separator character, three
non-empty digit runs joined by dots, a literal dot and a newline-free
extension tail. -/
def IsFwShaped (cs : List Char) : Prop :=
  ∃ (a : List Char) (c : Char) (d1 d2 d3 e : List Char),
    cs = a ++ c :: (d1 ++ '.' :: (d2 ++ '.' :: (d3 ++ '.' :: e))) ∧
    (∀ x ∈ a, x ≠ '\n') ∧ c ≠ '\n' ∧
    d1 ≠ [] ∧ (∀ x ∈ d1, x.isDigit = true) ∧
    d2 ≠ [] ∧ (∀ x ∈ d2, x.isDigit = true) ∧
    d3 ≠ [] ∧ (∀ x ∈ d3, x.isDigit = true) ∧
    (∀ x ∈ e, x ≠ '\n')

/-! Section: reconciliation (lib.py:320-393)

`get_all_firmware` groups discovered firmware by parsed basename, matches
each group name against the scraped model names, and then, for each group,
adds the group's discovered records to a result set and — when a model was
matched — synthesizes one record per scraped version string for that model,
with no check whether the version is already present.  The fuzzy-similarity
primitive `difflib.SequenceMatcher(...).ratio()` is an external standard
library collaborator; it is modelled as an abstract rational-valued
function parameter (the source compares the float ratio with `> 0.7`; the
spec notes the exact algorithm is not load-bearing, only the threshold and
tie-break are). -/

/-- Name normalization of a scraped model (lib.py:329):
`name.replace("-", "")`. -/
def normModel (s : String) : String := ⟨s.data.filter (· != '-')⟩

/-- Helper `leadMatch needle hay`: the needle is a leading run of the hay. -/
def leadMatch : List Char → List Char → Bool
  | [], _ => true
  | _ :: _, [] => false
  | c :: cs, d :: ds => decide (c = d) && leadMatch cs ds

/-- Python's substring test `needle in hay` (contiguous occurrence,
including the empty needle). -/
def strContains (hay needle : List Char) : Bool :=
  match hay with
  | [] => needle.isEmpty
  | _ :: rest => leadMatch needle hay || strContains rest needle

/-- Python's `max(iterable, key=lambda x: x[1])` (lib.py:352-361): keeps
the current best on ties, so the FIRST maximal element wins; an empty
iterable raises `ValueError` (`none`; the scrape result is non-empty in
practice). -/
def pyMax (l : List (String × ℚ)) : Option (String × ℚ) :=
  match l with
  | [] => none
  | x :: xs => some (xs.foldl (fun best y => if y.2 > best.2 then y else best) x)

/-- The per-group matching of lib.py:334-366: first containment of a
normalized scraped name in the group name, then containment of the group
name in a normalized scraped name (both scanning the scraped models in
insertion order), then the best fuzzy ratio over all scraped names,
accepted only when strictly greater than 0.7. -/
def matchModel (fuzzy : String → String → ℚ) (models : List String)
    (name : String) : Option String :=
  match (models.map (fun m => (m, normModel m))).find?
      (fun q => strContains name.data q.2.data) with
  | some q => some q.1
  | none =>
    match (models.map (fun m => (m, normModel m))).find?
        (fun q => strContains q.2.data name.data) with
    | some q => some q.1
    | none =>
      match pyMax ((models.map (fun m => (m, normModel m))).map
          (fun q => (q.1, fuzzy name q.2))) with
      | none => none
      | some best => if best.2 > 7 / 10 then some best.1 else none

/-- A record synthesized at lib.py:383-393: filename rebuilt from the
group's basename/separator/extension with the scraped version string,
download URL from the fixed template, filesize and md5 unset, type copied
from the record `fw`. -/
def synthRec (basename : String) (sep : Char) (ext : String)
    (ty : Option String) (version : String) : Firmware :=
  { download_url :=
      "https://api.shimano.com/etube/public/data/upload/published/" ++
        (basename ++ String.singleton sep ++ version ++ ext)
    filename := basename ++ String.singleton sep ++ version ++ ext
    version := version
    type := ty
    filesize := none
    md5 := none }

/-- One iteration of the final reconciliation loop (lib.py:376-393),
restricted to a single group: all discovered records of the group are added;
when a model was matched (`scraped = some versions`), the
basename/separator/extension pattern is taken from the group's LAST record
(the Python loop variable `fw` leaks out of the preceding `for`), and one
record is synthesized per scraped version string — unconditionally, with
only structural set deduplication.  `none` models exception propagation
(parse failure) and the unreachable empty-group case. -/
def groupContribution (name_fws : List Firmware)
    (scraped : Option (List String)) : Option (Finset Firmware) :=
  match scraped with
  | none => some name_fws.toFinset
  | some vers =>
    match name_fws.getLast? with
    | none => none
    | some fw =>
      match parse_fw_filename fw.filename with
      | .error _ => none
      | .ok (basename, sep, _, ext) =>
        some (name_fws.toFinset ∪
          (vers.map (synthRec basename sep ext fw.type)).toFinset)

/-- A discovered record for the C6 example group: filename `FW-2.3.4.bin`,
version 2.3.4, with filesize and md5 set (as API-discovered records have)
and a download URL that differs from the synthesis template. -/
def exFw : Firmware :=
  { filename := "FW-2.3.4.bin"
    version := "2.3.4"
    filesize := some 100
    md5 := some "d41d8cd9"
    type := some "firmware"
    download_url := "https://example.com/FW-2.3.4.bin" }

/-! Section: theorems for C1 and C2 -/

theorem mkVersion_of_major_lt (M m p : Nat) (hM : M < 10) :
    mkVersion ⟨M, m, p⟩ = some ⟨M, m, p⟩ := by
  have h1 : vlt ⟨M, m, p⟩ vminV = false := by
    simp [vlt, vminV]
  have h2 : vgt ⟨M, m, p⟩ vmaxV = false := by
    simp [vgt, vlt, vmaxV, hM]
  simp [mkVersion, h1, h2]

/-- C1: the claim as stated is FALSE on the code.  `0.0.20` is within
bounds (`Version((0,0,20))` constructs successfully), its integer encoding
is 20, but `Version.from_int(20)` returns `0.1.0`: the round trip fails and
the encoding is not injective on in-bounds versions, because the radices
are `MAX.patch = 20` / `MAX.minor = 20`, not `MAX.patch + 1` /
`MAX.minor + 1`. -/
theorem c1_roundtrip_counterexample :
    mkVersion ⟨0, 0, 20⟩ = some ⟨0, 0, 20⟩ ∧
    mkVersion ⟨0, 1, 0⟩ = some ⟨0, 1, 0⟩ ∧
    vInt ⟨0, 0, 20⟩ = vInt ⟨0, 1, 0⟩ ∧
    from_int (vInt ⟨0, 0, 20⟩) = some ⟨0, 1, 0⟩ ∧
    (⟨0, 1, 0⟩ : Version) ≠ ⟨0, 0, 20⟩ := by
  refine ⟨by decide, by decide, by decide, by decide, by decide⟩

/-- C1 (amended): the round trip `from_int (int v) = v` holds exactly on
versions each of whose fields is strictly below the corresponding field of
`Version.max()` (major < 10, minor < 20, patch < 20); on that sub-lattice
the encoding is a bijection onto `[0, 4000)`. -/
theorem c1_roundtrip_strict (v : Version) (h1 : v.major < vmaxV.major)
    (h2 : v.minor < vmaxV.minor) (h3 : v.patch < vmaxV.patch) :
    from_int (vInt v) = some v := by
  obtain ⟨M, m, p⟩ := v
  simp only [vmaxV] at h1 h2 h3
  unfold from_int vInt vmaxV
  simp only
  rw [if_neg (by omega)]
  have eM : (p + m * 20 + M * (20 * 20)) / 20 / 20 % 10 = M := by omega
  have em : (p + m * 20 + M * (20 * 20)) / 20 % 20 = m := by omega
  have ep : (p + m * 20 + M * (20 * 20)) % 20 = p := by omega
  rw [eM, em, ep]
  exact mkVersion_of_major_lt M m p h1

theorem c1_roundtrip_strict_witness :
    from_int (vInt ⟨2, 5, 7⟩) = some ⟨2, 5, 7⟩ :=
  c1_roundtrip_strict ⟨2, 5, 7⟩ (by decide) (by decide) (by decide)

/-- C2: the source's `__lt__` is a short-circuit OR over the three fields,
not lexicographic precedence.  At v1 = 2.0.0, v2 = 1.5.0 the code returns
`True` for BOTH `v1 < v2` and `v2 < v1` (violating the asymmetry that
`functools.total_ordering` requires of a strict order), whereas
lexicographic order has `v1 < v2` false. -/
theorem c2_lt_bug :
    vlt ⟨2, 0, 0⟩ ⟨1, 5, 0⟩ = true ∧
    vlt ⟨1, 5, 0⟩ ⟨2, 0, 0⟩ = true ∧
    lexLt ⟨2, 0, 0⟩ ⟨1, 5, 0⟩ = false ∧
    lexLt ⟨1, 5, 0⟩ ⟨2, 0, 0⟩ = true := by
  refine ⟨by decide, by decide, by decide, by decide⟩

/-! Section: theorems for C3, C4, C9, C10 -/

theorem httpLoop_ok_step (a : Attempt) (rest : List Attempt) (r : Int)
    (b : Nat) (last : Option NetErr) (body : String)
    (hr : r ≠ 0) (ha : runAttempt a = .ok body) :
    httpLoop (a :: rest) r b last = (.ok body, []) := by
  rw [httpLoop, if_neg hr]
  simp [ha]

theorem httpLoop_fatal_step (a : Attempt) (rest : List Attempt) (r : Int)
    (b : Nat) (last : Option NetErr) (e : NetErr)
    (hr : r ≠ 0) (ha : runAttempt a = .error e)
    (hf : exceptionRetryable e = false) :
    httpLoop (a :: rest) r b last = (.raised e, []) := by
  rw [httpLoop, if_neg hr]
  simp [ha, hf]

theorem httpLoop_retry_step (a : Attempt) (rest : List Attempt) (r : Int)
    (b : Nat) (last : Option NetErr) (e : NetErr)
    (hr : r ≠ 0) (hne : r ≠ -1) (ha : runAttempt a = .error e)
    (hre : exceptionRetryable e = true) (h1 : r - 1 ≠ 0) :
    httpLoop (a :: rest) r b last =
      ((httpLoop rest (r - 1) (min (b * 2) 300) (some e)).1,
        b :: (httpLoop rest (r - 1) (min (b * 2) 300) (some e)).2) := by
  rw [httpLoop, if_neg hr]
  simp [ha, hre, if_neg hne, if_neg h1]

/-- C3: the claim as stated is FALSE on the code: HTTP status 429 is NOT
retryable.  The `match` at lib.py:209 has the pair
`(status_code, server header)` as its subject, and `case 429:` compares
that pair against the integer literal 429, which can never succeed; a 429
response therefore falls to `case _` and is re-raised immediately, even
with an unlimited retry budget.  Also, a non-status transport error (the
trailing `except HTTPError`) is retried, not fatal. -/
theorem c3_classification_counterexample :
    exceptionRetryable (.statusError 429 none) = false ∧
    exceptionRetryable (.statusError 429 (some "AkamaiGHost")) = false ∧
    exceptionRetryable .otherHTTPError = true ∧
    http_request "GET" [attStatus 429 none] (-1) =
      (.raised (.statusError 429 none), []) := by
  refine ⟨by decide, by decide, by decide, by decide⟩

/-- C3 (amended): an `HTTPStatusError` is retryable exactly when its status
is in [500, 599], or it is 403 with the `server` header equal to
"AkamaiGHost"; 429 is fatal (the `case 429:` branch is dead code).
Timeouts and the remaining non-status HTTP errors are retryable.  A fatal
status propagates immediately: no retry and no sleep, whatever the
remaining budget. -/
theorem c3_classification :
    (∀ (code : Nat) (server : Option String),
        exceptionRetryable (.statusError code server) = true ↔
          ((500 ≤ code ∧ code ≤ 599) ∨
            (code = 403 ∧ server = some "AkamaiGHost"))) ∧
    exceptionRetryable .timeout = true ∧
    exceptionRetryable .otherHTTPError = true ∧
    (∀ (r : Int) (rest : List Attempt) (code : Nat) (server : Option String),
        r ≠ 0 → ¬(200 ≤ code ∧ code ≤ 299) →
        exceptionRetryable (.statusError code server) = false →
        http_request "GET" (attStatus code server :: rest) r =
          (.raised (.statusError code server), [])) := by
  refine ⟨?_, by decide, by decide, ?_⟩
  · intro code server
    simp only [exceptionRetryable]
    split_ifs with h1 h2 <;> simp_all
  · intro r rest code server hr h2xx hf
    have ha : runAttempt (attStatus code server) = .error (.statusError code server) := by
      simp [runAttempt, attStatus, raise_for_status, h2xx]
    exact httpLoop_fatal_step _ _ _ _ _ _ hr ha hf

theorem c3_classification_witness :
    http_request "GET" [attStatus 404 none] 5 =
      (.raised (.statusError 404 none), []) :=
  c3_classification.2.2.2 5 [] 404 none (by decide) (by decide) (by decide)

/-- C4: the claim as stated is FALSE on the code.  The `retry` parameter
counts total loop iterations, not retries after the first attempt: with a
budget of exactly 2 the loop runs attempt 1 (fails, sleeps 10), decrements
to 1, runs attempt 2 (fails), decrements to 0 and exits, re-raising the
503 after a single sleep — the success on the third attempt is never
reached. -/
theorem c4_retry_counterexample :
    http_request "GET" c4Scenario 2 = (.raised (.statusError 503 none), [10]) ∧
    http_request "GET" c4Scenario 2 ≠ (.ok "payload", [10, 20]) := by
  refine ⟨by decide, by decide⟩

/-- C4 (amended): for the fail(503)/fail(503)/succeed scenario, a retry
budget of at least 3 — or the unlimited budget −1 — returns the success
payload after sleeping exactly twice, 10 then 20 time-units; backoff
doubles after each sleep and is capped at 300; with a budget of 0 the loop
body never runs: no request is attempted, nothing sleeps, and the source
executes `raise None` (a `TypeError`), modelled as `raisedNone`. -/
theorem c4_retry :
    (∀ r : Int, 3 ≤ r →
        http_request "GET" c4Scenario r = (.ok "payload", [10, 20])) ∧
    http_request "GET" c4Scenario (-1) = (.ok "payload", [10, 20]) ∧
    (∀ (m : String) (atts : List Attempt),
        http_request m atts 0 = (.raisedNone, [])) ∧
    http_request "GET" (List.replicate 8 (attStatus 503 none) ++ [attOk "payload"]) (-1) =
      (.ok "payload", [10, 20, 40, 80, 160, 300, 300, 300]) := by
  refine ⟨?_, by decide, ?_, by decide⟩
  · intro r hr
    have e503 : runAttempt (attStatus 503 none) = .error (.statusError 503 none) := rfl
    have eok : runAttempt (attOk "payload") = .ok "payload" := rfl
    show httpLoop (attStatus 503 none :: attStatus 503 none :: [attOk "payload"]) r 10 none = _
    rw [httpLoop_retry_step _ _ _ _ _ _ (by omega) (by omega) e503 (by decide) (by omega)]
    rw [httpLoop_retry_step _ _ _ _ _ _ (by omega) (by omega) e503 (by decide) (by omega)]
    rw [httpLoop_ok_step _ _ _ _ _ "payload" (by omega) eok]
    decide
  · intro m atts
    show httpLoop atts 0 10 none = _
    unfold httpLoop
    simp [raiseLast]

theorem c4_retry_witness :
    http_request "GET" c4Scenario 3 = (.ok "payload", [10, 20]) :=
  c4_retry.1 3 (by decide)

/-- C9: the claim as stated is FALSE on the code.  The memoization is
`functools.cache` (lib.py:189): a module-level, process-wide map that
nothing ever clears — `get_all_firmware` (lib.py:320-322) performs no
reinitialization.  Modelling two top-level invocations in one process: the
first caches "body1" under the key; the first fetch of the second
invocation starts from that same persisting cache and observes the cached
"body1" (issuing no network request), even though the network would now
serve "body2". -/
theorem c9_cache_counterexample :
    cachedHttpRequest [] "GET" "u" (-1) [attOk "body1"] =
      ((.ok "body1", []), [(("GET", "u", (-1 : Int)), "body1")], true) ∧
    cachedHttpRequest [(("GET", "u", (-1 : Int)), "body1")] "GET" "u" (-1)
        [attOk "body2"] =
      ((.ok "body1", []), [(("GET", "u", (-1 : Int)), "body1")], false) := by
  refine ⟨by decide, by decide⟩

/-- C9 (amended): within a process, a repeated call with the same
(method, url, retry) key returns the cached outcome with no new network
call and an unchanged cache; a successful miss stores its body under the
key.  The cache is never cleared: it only grows, and entries persist
across top-level pipeline invocations in the same process. -/
theorem c9_cache :
    (∀ (c : Cache) (m u : String) (r : Int) (atts : List Attempt) (body : String),
        List.lookup (m, u, r) c = some body →
        cachedHttpRequest c m u r atts = ((.ok body, []), c, false)) ∧
    (∀ (c : Cache) (m u : String) (r : Int) (atts : List Attempt)
        (body : String) (sleeps : List Nat),
        List.lookup (m, u, r) c = none →
        http_request m atts r = (.ok body, sleeps) →
        cachedHttpRequest c m u r atts =
          ((.ok body, sleeps), ((m, u, r), body) :: c, true)) := by
  constructor
  · intro c m u r atts body h
    simp [cachedHttpRequest, h]
  · intro c m u r atts body sleeps h hreq
    simp [cachedHttpRequest, h, hreq]

theorem c9_cache_witness :
    cachedHttpRequest [(("GET", "u", (-1 : Int)), "body1")] "GET" "u" (-1)
        [attOk "body2"] =
      ((.ok "body1", []), [(("GET", "u", (-1 : Int)), "body1")], false) :=
  c9_cache.1 [(("GET", "u", (-1 : Int)), "body1")] "GET" "u" (-1)
    [attOk "body2"] "body1" (by decide)

/-- C10: on every attempt the source issues the method-specific request and
then unconditionally overwrites `response` with a fresh GET (lib.py:197-200);
only the GET response is status-checked and read.  Hence: `http_head` and
`http_get` coincide, the result never depends on the `method` argument, the
discarded first response (whatever its status or body) never influences an
attempt's outcome, and a successful call — `http_head` included — returns
the body downloaded by the GET. -/
theorem c10_double_get :
    (∀ (atts : List Attempt) (r : Int), http_head atts r = http_get atts r) ∧
    (∀ (m m' : String) (atts : List Attempt) (r : Int),
        http_request m atts r = http_request m' atts r) ∧
    (∀ (fo : Option TransportErr) (fr fr' : NetResponse)
        (go : Except TransportErr NetResponse),
        runAttempt ⟨fo, fr, go⟩ = runAttempt ⟨fo, fr', go⟩) ∧
    (∀ (fr : NetResponse) (sv : Option String) (b : String),
        http_head [⟨none, fr, .ok ⟨200, sv, b⟩⟩] (-1) = (.ok b, [])) := by
  refine ⟨fun _ _ => rfl, fun _ _ _ _ => rfl, fun _ _ _ _ => rfl, ?_⟩
  intro fr sv b
  show httpLoop [⟨none, fr, .ok ⟨200, sv, b⟩⟩] (-1) 10 none = _
  exact httpLoop_ok_step _ _ _ _ _ b (by decide)
    (by simp [runAttempt, raise_for_status])

/-! Section: theorems for C5 -/

theorem inner_const (p : Nat → String) (c : String) :
    ∀ (n low high : Nat), high - low ≤ n → low ≤ high →
      (∀ x, low ≤ x → x ≤ high → p x = c) → inner p low high = {c} := by
  intro n
  induction n with
  | zero =>
    intro low high hn hle hp
    have pm : p ((low + high) / 2) = c := hp _ (by omega) (by omega)
    have ph : p high = c := hp _ hle le_rfl
    rw [inner, pm, ph, if_pos rfl,
      dif_pos (Or.inl (by omega : low = (low + high) / 2))]
    simp
  | succ k ih =>
    intro low high hn hle hp
    have hm1 : low ≤ (low + high) / 2 := by omega
    have hm2 : (low + high) / 2 ≤ high := by omega
    have pm : p ((low + high) / 2) = c := hp _ hm1 hm2
    have ph : p high = c := hp _ hle le_rfl
    rw [inner, pm, ph, if_pos rfl]
    by_cases hfin : low = (low + high) / 2 ∨ high = (low + high) / 2
    · rw [dif_pos hfin]
      simp
    · rw [dif_neg hfin]
      push_neg at hfin
      have hrec : inner p low ((low + high) / 2) = {c} :=
        ih low ((low + high) / 2) (by omega) hm1
          (fun x hx1 hx2 => hp x hx1 (le_trans hx2 hm2))
      rw [hrec]
      simp

theorem inner_step (p : Nat → String) (B : Nat) (c1 c2 : String) (hne : c1 ≠ c2) :
    ∀ (n low high : Nat), high - low ≤ n → low < B → B ≤ high →
      (∀ x, low ≤ x → x ≤ high → p x = if x < B then c1 else c2) →
      inner p low high = {c1, c2} := by
  intro n
  induction n with
  | zero =>
    intro low high hn hlow hhigh _
    omega
  | succ k ih =>
    intro low high hn hlow hhigh hp
    have hlh : low < high := lt_of_lt_of_le hlow hhigh
    have hm1 : low ≤ (low + high) / 2 := by omega
    have hm2 : (low + high) / 2 ≤ high := by omega
    have ph : p high = c2 := by
      rw [hp high (le_of_lt hlh) le_rfl, if_neg (by omega)]
    by_cases hB : B ≤ (low + high) / 2
    · have pm : p ((low + high) / 2) = c2 := by
        rw [hp _ hm1 hm2, if_neg (by omega)]
      have hnf : ¬(low = (low + high) / 2 ∨ high = (low + high) / 2) := by
        push_neg
        constructor <;> omega
      rw [inner, pm, ph, if_pos rfl, dif_neg hnf]
      have hrec : inner p low ((low + high) / 2) = {c1, c2} :=
        ih low ((low + high) / 2) (by omega) hlow hB
          (fun x hx1 hx2 => hp x hx1 (le_trans hx2 hm2))
      rw [hrec]
      ext a
      simp only [Finset.mem_insert, Finset.mem_singleton]
      tauto
    · push_neg at hB
      have pm : p ((low + high) / 2) = c1 := by
        rw [hp _ hm1 hm2, if_pos hB]
      have hab : p ((low + high) / 2) ≠ p high := by
        rw [pm, ph]
        exact hne
      rw [inner, if_neg hab, pm, ph]
      by_cases hfin : low = (low + high) / 2 ∨ high = (low + high) / 2
      · rw [dif_pos hfin, Finset.union_empty]
      · rw [dif_neg hfin]
        push_neg at hfin
        have hlm : low < (low + high) / 2 := lt_of_le_of_ne hm1 hfin.1
        have hmh : (low + high) / 2 < high := lt_of_le_of_ne hm2 (Ne.symm hfin.2)
        have hleft : inner p low ((low + high) / 2) = {c1} :=
          inner_const p c1 ((low + high) / 2 - low) low ((low + high) / 2)
            le_rfl hm1
            (fun x hx1 hx2 => by
              rw [hp x hx1 (le_trans hx2 hm2), if_pos (by omega)])
        have hright : inner p ((low + high) / 2) high = {c1, c2} :=
          ih ((low + high) / 2) high (by omega) hB hhigh
            (fun x hx1 hx2 => hp x (le_trans hm1 hx1) hx2)
        rw [hleft, hright]
        ext a
        simp only [Finset.mem_insert, Finset.mem_union, Finset.mem_singleton]
        tauto

/-- C5: modelling the fetch as a pure function `p` from integer-encoded
versions of the search range [2.2.3, 9.9.19] to payload strings:
if `p` is constant over the range, the bisection `inner` returns exactly
that one payload; and if `p` equals one constant strictly below a
breakpoint `B` inside the range and a different constant at and above `B`,
`inner` returns exactly the set of those two payloads. -/
theorem c5_bisect (p : Nat → String) (c c1 c2 : String) :
    ((∀ x, vInt ⟨2, 2, 3⟩ ≤ x → x ≤ vInt ⟨9, 9, 19⟩ → p x = c) →
        inner p (vInt ⟨2, 2, 3⟩) (vInt ⟨9, 9, 19⟩) = {c}) ∧
    (∀ B, vInt ⟨2, 2, 3⟩ < B → B ≤ vInt ⟨9, 9, 19⟩ → c1 ≠ c2 →
        (∀ x, vInt ⟨2, 2, 3⟩ ≤ x → x ≤ vInt ⟨9, 9, 19⟩ →
          p x = if x < B then c1 else c2) →
        inner p (vInt ⟨2, 2, 3⟩) (vInt ⟨9, 9, 19⟩) = {c1, c2}) := by
  constructor
  · intro hp
    exact inner_const p c (vInt ⟨9, 9, 19⟩ - vInt ⟨2, 2, 3⟩) _ _ le_rfl (by decide) hp
  · intro B hB1 hB2 hne hp
    exact inner_step p B c1 c2 hne (vInt ⟨9, 9, 19⟩ - vInt ⟨2, 2, 3⟩) _ _ le_rfl hB1 hB2 hp

theorem c5_bisect_witness :
    inner (fun _ => "k") (vInt ⟨2, 2, 3⟩) (vInt ⟨9, 9, 19⟩) = {"k"} ∧
    inner (fun x => if x < 2000 then "lo" else "hi")
        (vInt ⟨2, 2, 3⟩) (vInt ⟨9, 9, 19⟩) = {"lo", "hi"} :=
  ⟨(c5_bisect (fun _ => "k") "k" "a" "b").1 (fun _ _ _ => rfl),
   (c5_bisect (fun x => if x < 2000 then "lo" else "hi") "c" "lo" "hi").2
     2000 (by decide) (by decide) (by decide) (fun _ _ _ => rfl)⟩

/-! Section: theorems for C6 -/

/-- C6: the claim as stated is FALSE on the code.  The synthesis loop
(lib.py:382-393) has no "already present" check: it synthesizes a record
for EVERY scraped version string.  For the example group — one discovered
record `FW-2.3.4.bin` (version 2.3.4, filesize/md5 set, API download URL)
and scraped versions ["2.3.4", "2.5.0"] — the result holds three records,
i.e. TWO were added: the template-URL synthesis of the already-present
version 2.3.4 (same filename as the discovered record, different fields)
and the synthesis of 2.5.0, not "exactly one". -/
theorem c6_synthesis_counterexample :
    groupContribution [exFw] (some ["2.3.4", "2.5.0"]) =
      some {exFw, synthRec "FW" '-' ".bin" (some "firmware") "2.3.4",
            synthRec "FW" '-' ".bin" (some "firmware") "2.5.0"} ∧
    ({exFw, synthRec "FW" '-' ".bin" (some "firmware") "2.3.4",
      synthRec "FW" '-' ".bin" (some "firmware") "2.5.0"} : Finset Firmware).card = 3 ∧
    (synthRec "FW" '-' ".bin" (some "firmware") "2.3.4").filename = exFw.filename := by
  refine ⟨by decide, by decide, by decide⟩

/-- C6 (amended): for every matched group a record is synthesized for EVERY
scraped version string — with download_url from the fixed template,
filesize and md5 unset, and type copied from the group's last discovered
record — and added to the result set, where only full structural equality
deduplicates; a scraped version already present is "skipped" only when the
existing record is field-for-field identical to the would-be synthesis, as
in the second conjunct's group whose sole record is itself in synthesis
form. -/
theorem c6_synthesis :
    (∀ (fws : List Firmware) (fw : Firmware) (vers : List String)
        (b : String) (sep : Char) (v : Version) (e : String),
        fws.getLast? = some fw →
        parse_fw_filename fw.filename = .ok (b, sep, v, e) →
        groupContribution fws (some vers) =
          some (fws.toFinset ∪ (vers.map (synthRec b sep e fw.type)).toFinset)) ∧
    groupContribution [synthRec "FW" '-' ".bin" none "2.3.4"]
        (some ["2.3.4", "2.5.0"]) =
      some {synthRec "FW" '-' ".bin" none "2.3.4",
            synthRec "FW" '-' ".bin" none "2.5.0"} := by
  constructor
  · intro fws fw vers b sep v e h1 h2
    simp only [groupContribution, h1, h2]
  · decide

theorem c6_synthesis_witness :
    groupContribution [exFw] (some ["2.5.0"]) =
      some ([exFw].toFinset ∪
        (["2.5.0"].map (synthRec "FW" '-' ".bin" (some "firmware"))).toFinset) :=
  c6_synthesis.1 [exFw] exFw ["2.5.0"] "FW" '-' ⟨2, 3, 4⟩ ".bin" rfl rfl

/-! Section: theorems for C7 -/

theorem foldl_best_mem (xs : List (String × ℚ)) (x : String × ℚ) :
    xs.foldl (fun best y => if y.2 > best.2 then y else best) x = x ∨
      xs.foldl (fun best y => if y.2 > best.2 then y else best) x ∈ xs := by
  induction xs generalizing x with
  | nil => left; rfl
  | cons y ys ih =>
    simp only [List.foldl_cons]
    rcases ih (if y.2 > x.2 then y else x) with h | h
    · by_cases hc : y.2 > x.2
      · right
        rw [h, if_pos hc]
        simp
      · left
        rw [h, if_neg hc]
    · right
      simp [h]

theorem foldl_best_stays (xs : List (String × ℚ)) (x : String × ℚ)
    (h : ∀ y ∈ xs, y.2 ≤ x.2) :
    xs.foldl (fun best y => if y.2 > best.2 then y else best) x = x := by
  induction xs with
  | nil => rfl
  | cons y ys ih =>
    simp only [List.foldl_cons]
    rw [if_neg (not_lt.mpr (h y (by simp)))]
    exact ih (fun z hz => h z (by simp [hz]))

/-- C7: matching order, threshold and determinism, confirmed.  The fuzzy
primitive is abstract (`fz`), so the containment conjuncts hold for every
similarity function: (1) the spec's example group "ST-R9100" matches
"R9100" by containment of the normalized scraped name before any fuzzy
comparison; (2) reverse containment (group name inside a normalized scraped
name) is also tried before fuzzy; (3) with no containment in either
direction and every ratio at most 7/10, the group stays unmatched; (4) with
no containment and all ratios equal and above the threshold, the
first-encountered scraped model wins the tie; (5) an unmatched group's
discovered records are kept unmodified in the output. -/
theorem c7_matching :
    (∀ fz : String → String → ℚ,
        matchModel fz ["R9100", "Di2-Battery"] "ST-R9100" = some "R9100") ∧
    (∀ fz : String → String → ℚ,
        matchModel fz ["STR9100X"] "R9100" = some "STR9100X") ∧
    (∀ (fz : String → String → ℚ) (models : List String) (name : String),
        (∀ m ∈ models, strContains name.data (normModel m).data = false) →
        (∀ m ∈ models, strContains (normModel m).data name.data = false) →
        (∀ m ∈ models, fz name (normModel m) ≤ 7 / 10) →
        matchModel fz models name = none) ∧
    (∀ (fz : String → String → ℚ) (m0 : String) (rest : List String)
        (name : String) (r : ℚ),
        (∀ m ∈ m0 :: rest, strContains name.data (normModel m).data = false) →
        (∀ m ∈ m0 :: rest, strContains (normModel m).data name.data = false) →
        (∀ m ∈ m0 :: rest, fz name (normModel m) = r) →
        7 / 10 < r →
        matchModel fz (m0 :: rest) name = some m0) ∧
    (∀ fws : List Firmware, groupContribution fws none = some fws.toFinset) := by
  have hfind1 : ∀ (models : List String) (name : String),
      (∀ m ∈ models, strContains name.data (normModel m).data = false) →
      (models.map (fun m => (m, normModel m))).find?
        (fun q => strContains name.data q.2.data) = none := by
    intro models name h
    rw [List.find?_eq_none]
    intro q hq
    rw [List.mem_map] at hq
    obtain ⟨m, hm, rfl⟩ := hq
    simp [h m hm]
  have hfind2 : ∀ (models : List String) (name : String),
      (∀ m ∈ models, strContains (normModel m).data name.data = false) →
      (models.map (fun m => (m, normModel m))).find?
        (fun q => strContains q.2.data name.data) = none := by
    intro models name h
    rw [List.find?_eq_none]
    intro q hq
    rw [List.mem_map] at hq
    obtain ⟨m, hm, rfl⟩ := hq
    simp [h m hm]
  refine ⟨fun fz => rfl, fun fz => rfl, ?_, ?_, fun fws => rfl⟩
  · intro fz models name h1 h2 h3
    simp only [matchModel, hfind1 models name h1, hfind2 models name h2]
    cases models with
    | nil => rfl
    | cons m0 rest =>
      have hmem2 : ∀ y ∈ ((rest.map (fun m => (m, normModel m))).map
          (fun q => (q.1, fz name q.2))), y.2 ≤ 7 / 10 := by
        intro y hy
        rw [List.mem_map] at hy
        obtain ⟨q, hq, rfl⟩ := hy
        rw [List.mem_map] at hq
        obtain ⟨m, hm, rfl⟩ := hq
        exact h3 m (by simp [hm])
      simp only [List.map_cons, pyMax]
      rcases foldl_best_mem ((rest.map (fun m => (m, normModel m))).map
          (fun q => (q.1, fz name q.2))) (m0, fz name (normModel m0)) with h | h
      · rw [h, if_neg (not_lt.mpr (h3 m0 (by simp)))]
      · rw [if_neg (not_lt.mpr (hmem2 _ h))]
  · intro fz m0 rest name r h1 h2 h3 hr
    simp only [matchModel, hfind1 _ name h1, hfind2 _ name h2]
    simp only [List.map_cons, pyMax]
    rw [foldl_best_stays]
    · have e0 : fz name (normModel m0) = r := h3 m0 (by simp)
      simp only [e0]
      rw [if_pos hr]
    · intro y hy
      rw [List.mem_map] at hy
      obtain ⟨q, hq, rfl⟩ := hy
      rw [List.mem_map] at hq
      obtain ⟨m, hm, rfl⟩ := hq
      have em : fz name (normModel m) = r := h3 m (by simp [hm])
      have e0 : fz name (normModel m0) = r := h3 m0 (by simp)
      simp only [em, e0, le_refl]

theorem c7_matching_witness :
    matchModel (fun _ _ => (1 : ℚ) / 2) ["R9100", "Di2-Battery"] "XYZ123" = none ∧
    matchModel (fun _ _ => (4 : ℚ) / 5) ["A1", "B1"] "XYZ123" = some "A1" :=
  ⟨c7_matching.2.2.1 (fun _ _ => (1 : ℚ) / 2) ["R9100", "Di2-Battery"] "XYZ123"
      (by decide) (by decide) (fun m _ => by norm_num),
   c7_matching.2.2.2.1 (fun _ _ => (4 : ℚ) / 5) "A1" ["B1"] "XYZ123" (4 / 5)
      (by decide) (by decide) (fun m _ => rfl) (by norm_num)⟩

/-! Section: theorems for C8 -/

theorem takeDigits_append : ∀ cs : List Char,
    (takeDigits cs).1 ++ (takeDigits cs).2 = cs := by
  intro cs
  induction cs with
  | nil => rfl
  | cons c cs ih =>
    by_cases h : c.isDigit
    · simp [takeDigits, h, ih]
    · simp [takeDigits, h]

theorem takeDigits_digits : ∀ cs : List Char,
    ∀ x ∈ (takeDigits cs).1, x.isDigit = true := by
  intro cs
  induction cs with
  | nil => simp [takeDigits]
  | cons c cs ih =>
    by_cases h : c.isDigit
    · simp only [takeDigits, if_pos h, List.mem_cons]
      rintro x (rfl | hx)
      · exact h
      · exact ih x hx
    · simp [takeDigits, h]

theorem takeDigits_of_split : ∀ (d r : List Char),
    (∀ x ∈ d, x.isDigit = true) →
    (∀ y ys, r = y :: ys → y.isDigit = false) →
    takeDigits (d ++ r) = (d, r) := by
  intro d
  induction d with
  | nil =>
    intro r _ hr
    cases r with
    | nil => rfl
    | cons y ys => simp [takeDigits, hr y ys rfl]
  | cons c d ih =>
    intro r hd hr
    have hc : c.isDigit = true := hd c (by simp)
    simp [takeDigits, hc, ih r (fun x hx => hd x (by simp [hx])) hr]

theorem digitRun_sound (cs d r : List Char) (h : digitRun cs = some (d, r)) :
    cs = d ++ r ∧ d ≠ [] ∧ (∀ x ∈ d, x.isDigit = true) := by
  unfold digitRun at h
  split at h
  · exact absurd h (by simp)
  · rename_i hne
    rw [Option.some_inj] at h
    have e1 : (takeDigits cs).1 = d := by rw [h]
    have e2 : (takeDigits cs).2 = r := by rw [h]
    refine ⟨?_, ?_, ?_⟩
    · rw [← e1, ← e2, takeDigits_append]
    · rw [← e1]; exact hne
    · intro x hx
      exact takeDigits_digits cs x (e1 ▸ hx)

theorem digitRun_complete (d r : List Char)
    (hd : d ≠ []) (hdig : ∀ x ∈ d, x.isDigit = true)
    (hr : ∀ y ys, r = y :: ys → y.isDigit = false) :
    digitRun (d ++ r) = some (d, r) := by
  unfold digitRun
  rw [takeDigits_of_split d r hdig hr]
  simp [hd]

theorem expectDot_sound (r r' : List Char) (h : expectDot r = some r') :
    r = '.' :: r' := by
  unfold expectDot at h
  split at h
  · rw [Option.some_inj] at h
    rw [h]
  · exact absurd h (by simp)

theorem versionAndExt_sound (cs : List Char) (d1 d2 d3 e : List Char)
    (h : versionAndExt cs = some (d1, d2, d3, e)) :
    cs = d1 ++ '.' :: (d2 ++ '.' :: (d3 ++ '.' :: e)) ∧
    d1 ≠ [] ∧ (∀ x ∈ d1, x.isDigit = true) ∧
    d2 ≠ [] ∧ (∀ x ∈ d2, x.isDigit = true) ∧
    d3 ≠ [] ∧ (∀ x ∈ d3, x.isDigit = true) ∧
    (∀ x ∈ e, x ≠ '\n') := by
  unfold versionAndExt at h
  rw [Option.bind_eq_some] at h
  obtain ⟨⟨a1, r1⟩, hp1, h⟩ := h
  rw [Option.bind_eq_some] at h
  obtain ⟨r2, hr2, h⟩ := h
  rw [Option.bind_eq_some] at h
  obtain ⟨⟨a2, r3⟩, hp2, h⟩ := h
  rw [Option.bind_eq_some] at h
  obtain ⟨r4, hr4, h⟩ := h
  rw [Option.bind_eq_some] at h
  obtain ⟨⟨a3, r5⟩, hp3, h⟩ := h
  rw [Option.bind_eq_some] at h
  obtain ⟨ext, hext, h⟩ := h
  simp only at h hr2 hr4 hext
  split at h
  · rename_i hall
    rw [Option.some_inj] at h
    obtain ⟨rfl, rfl, rfl, rfl⟩ := h
    obtain ⟨e1, hne1, hdig1⟩ := digitRun_sound cs d1 r1 hp1
    obtain ⟨e2, hne2, hdig2⟩ := digitRun_sound r2 d2 r3 hp2
    obtain ⟨e3, hne3, hdig3⟩ := digitRun_sound r4 d3 r5 hp3
    have q1 : r1 = '.' :: r2 := expectDot_sound r1 r2 hr2
    have q2 : r3 = '.' :: r4 := expectDot_sound r3 r4 hr4
    have q3 : r5 = '.' :: e := expectDot_sound r5 e hext
    refine ⟨?_, hne1, hdig1, hne2, hdig2, hne3, hdig3, ?_⟩
    · rw [e1, q1, e2, q2, e3, q3]
    · intro x hx
      simpa using List.all_eq_true.mp hall x hx
  · exact absurd h (by simp)

theorem versionAndExt_complete (d1 d2 d3 e : List Char)
    (h1 : d1 ≠ []) (hd1 : ∀ x ∈ d1, x.isDigit = true)
    (h2 : d2 ≠ []) (hd2 : ∀ x ∈ d2, x.isDigit = true)
    (h3 : d3 ≠ []) (hd3 : ∀ x ∈ d3, x.isDigit = true)
    (he : ∀ x ∈ e, x ≠ '\n') :
    versionAndExt (d1 ++ '.' :: (d2 ++ '.' :: (d3 ++ '.' :: e))) =
      some (d1, d2, d3, e) := by
  have hdot : ∀ (R : List Char) y ys, ('.' :: R : List Char) = y :: ys → y.isDigit = false := by
    intro R y ys hyy
    cases hyy
    decide
  have hall : e.all (· != '\n') = true := by
    rw [List.all_eq_true]
    intro x hx
    simpa using he x hx
  unfold versionAndExt
  rw [digitRun_complete d1 _ h1 hd1 (hdot _)]
  simp only [Option.some_bind]
  rw [show expectDot ('.' :: (d2 ++ '.' :: (d3 ++ '.' :: e))) =
    some (d2 ++ '.' :: (d3 ++ '.' :: e)) from rfl]
  simp only [Option.some_bind]
  rw [digitRun_complete d2 _ h2 hd2 (hdot _)]
  simp only [Option.some_bind]
  rw [show expectDot ('.' :: (d3 ++ '.' :: e)) = some (d3 ++ '.' :: e) from rfl]
  simp only [Option.some_bind]
  rw [digitRun_complete d3 _ h3 hd3 (hdot _)]
  simp only [Option.some_bind]
  rw [show expectDot ('.' :: e) = some e from rfl]
  simp only [Option.some_bind]
  simp [hall]

theorem fwMatchAux_sound : ∀ (cs : List Char) (q : FwParts),
    fwMatchAux cs = some q → IsFwShaped cs := by
  intro cs
  induction cs with
  | nil => intro q h; exact absurd h (by simp [fwMatchAux])
  | cons c rest ih =>
    intro q h
    rw [fwMatchAux] at h
    by_cases hc : c = '\n'
    · rw [if_pos hc] at h
      exact absurd h (by simp)
    · rw [if_neg hc] at h
      cases hrec : fwMatchAux rest with
      | some q' =>
        obtain ⟨a, c', d1, d2, d3, e, hcs, ha, hc', hs⟩ := ih q' hrec
        refine ⟨c :: a, c', d1, d2, d3, e, by simp [hcs], ?_, hc', hs⟩
        intro x hx
        rcases List.mem_cons.mp hx with rfl | hx'
        · exact hc
        · exact ha x hx'
      | none =>
        rw [hrec] at h
        simp only at h
        cases hv : versionAndExt rest with
        | none =>
          rw [hv] at h
          exact absurd h (by simp)
        | some t =>
          obtain ⟨d1, d2, d3, e⟩ := t
          obtain ⟨hcs, h1, hd1, h2, hd2, h3, hd3, he⟩ :=
            versionAndExt_sound rest d1 d2 d3 e hv
          exact ⟨[], c, d1, d2, d3, e, by simp [hcs], by simp, hc,
            h1, hd1, h2, hd2, h3, hd3, he⟩

theorem fwMatchAux_complete (cs : List Char) (h : IsFwShaped cs) :
    (fwMatchAux cs).isSome = true := by
  obtain ⟨a, c, d1, d2, d3, e, hcs, ha, hc, h1, hd1, h2, hd2, h3, hd3, he⟩ := h
  subst hcs
  revert ha
  induction a with
  | nil =>
    intro ha
    rw [List.nil_append, fwMatchAux, if_neg hc]
    cases hrec : fwMatchAux (d1 ++ '.' :: (d2 ++ '.' :: (d3 ++ '.' :: e))) with
    | some q => simp
    | none =>
      rw [versionAndExt_complete d1 d2 d3 e h1 hd1 h2 hd2 h3 hd3 he]
      simp
  | cons x a ih =>
    intro ha
    have hx : x ≠ '\n' := ha x (by simp)
    rw [List.cons_append, fwMatchAux, if_neg hx]
    have hrest := ih (fun y hy => ha y (by simp [hy]))
    cases hq : fwMatchAux (a ++ c :: (d1 ++ '.' :: (d2 ++ '.' :: (d3 ++ '.' :: e)))) with
    | some q => simp
    | none =>
      rw [hq] at hrest
      exact absurd hrest (by simp)

/-- C8: the claim as stated is FALSE on the code: parsing a malformed
filename does fail, but incidentally, not explicitly.  `re.fullmatch`
returns `None` and the very next line calls `match.group(1)`, raising
`AttributeError` — the source defines no `MalformedFilenameError`
(the constructor of that name in `PyErr` exists only to state the claim,
and no execution path produces it).  `"FW-1.2.3"` — a well-formed basename,
separator and version but no extension — is such an input. -/
theorem c8_parse_counterexample :
    parse_fw_filename "FW-1.2.3" = .error .attributeError ∧
    PyErr.attributeError ≠ PyErr.malformedFilenameError := by
  exact ⟨rfl, by decide⟩

/-- C8 (amended): for every filename that does not decompose into a
(newline-free) basename, a single non-newline separator character, three
dot-separated non-empty digit groups, and a dot-led (newline-free)
extension, `parse_fw_filename` fails — but with the incidental
`AttributeError` from calling `.group` on `None`, not with an explicit
malformed-filename error. -/
theorem c8_parse (s : String) (h : ¬ IsFwShaped s.data) :
    parse_fw_filename s = .error .attributeError := by
  cases hm : fwMatchAux s.data with
  | none => simp [parse_fw_filename, fwMatch, hm]
  | some q => exact absurd (fwMatchAux_sound s.data q hm) h

theorem c8_parse_witness :
    parse_fw_filename "nodots" = .error .attributeError :=
  c8_parse "nodots" (fun h => by
    have h2 := fwMatchAux_complete "nodots".data h
    rw [show fwMatchAux "nodots".data = none from rfl] at h2
    exact absurd h2 (by simp))

end Etube
